import Mathlib

/-!
Verification of the resume-screening matching pipeline (`src/llm_matcher.py`
and `src/resume_parser.py`) against its specification.

The Python code is shallowly embedded: strings are `String`/`List Char`,
Python floats are modelled as exact rationals `ℚ`, Python sets of strings as
duplicate-free lists, and each regular-expression search of the source is
transcribed as an explicit, executable scanning function with the same
matching semantics (leftmost match, greedy/lazy quantifier behaviour) on the
concrete patterns appearing in the source.
-/

namespace SRS

/-! ## Basic character and list helpers -/

/-- Whitespace characters recognised by the regex class backslash-s of the
source patterns, modelled over the ASCII range. -/
def isSpace (c : Char) : Bool :=
  c = ' ' ∨ c = '\t' ∨ c = '\n' ∨ c = '\r' ∨ c = '\x0b' ∨ c = '\x0c'

/-- Word characters of the regex class backslash-w (ASCII range), used by the
word-boundary assertions in skill extraction. -/
def isWordChar (c : Char) : Bool := c.isAlphanum || c = '_'

/-- Strip leading and trailing whitespace, modelling Python `str.strip()`. -/
def trimL (s : List Char) : List Char :=
  ((s.dropWhile isSpace).reverse.dropWhile isSpace).reverse

/-- Lower-case a character list, modelling Python `str.lower()` (ASCII). -/
def lowerL (s : List Char) : List Char := s.map Char.toLower

/-- Lower-case a string character-wise, modelling Python `str.lower()`
(ASCII); kept at the character level so that concrete inputs evaluate. -/
def pyLower (s : String) : String := ⟨lowerL s.data⟩

/-- Case-insensitive prefix stripping: if the lower-case pattern `p` matches
the front of `s` ignoring case, return the rest of `s`. -/
def stripPrefixCI : List Char → List Char → Option (List Char)
  | [], s => some s
  | _ :: _, [] => none
  | p :: ps, c :: cs => if c.toLower = p then stripPrefixCI ps cs else none

/-- Whether the lower-case pattern `p` matches the front of `s` ignoring
case. -/
def startsWithCI (p s : List Char) : Bool := (stripPrefixCI p s).isSome

/-- Leftmost-match driver: try `attempt` at every position of the string from
the left, as `re.search` does, returning the first success. -/
def scanFirst (attempt : List Char → Option β) : List Char → Option β
  | [] => attempt []
  | c :: rest =>
    match attempt (c :: rest) with
    | some b => some b
    | none => scanFirst attempt rest

/-- Case-insensitive substring test, via the leftmost-match driver. -/
def containsCI (pat : String) (s : List Char) : Bool :=
  (scanFirst (fun t => (stripPrefixCI pat.data t).map fun _ => ()) s).isSome

/-- Consume one leading colon if present, modelling the greedy `:?` that
follows each section heading in the source patterns. -/
def stripColon : List Char → List Char
  | ':' :: rest => rest
  | s => s

/-- Lazy capture of a section body: the shortest prefix ending where one of
the terminator patterns begins (case-insensitively), or at end of input, or
just before a final newline (the semantics of `$` in a non-MULTILINE Python
pattern, with DOTALL making `.` cross newlines). -/
def captureUntil (terms : List (List Char)) : List Char → List Char
  | [] => []
  | c :: rest =>
    if terms.any (fun t => startsWithCI t (c :: rest)) then []
    else if c = '\n' ∧ rest = [] then []
    else c :: captureUntil terms rest

/-- Split a character list on commas, modelling Python `str.split(',')`. -/
def splitOnComma : List Char → List (List Char)
  | [] => [[]]
  | c :: rest =>
    if c = ',' then [] :: splitOnComma rest
    else
      match splitOnComma rest with
      | h :: t => (c :: h) :: t
      | [] => [[c]]

/-- Convert a run of decimal digit characters to a natural number. -/
def natOfDigits (ds : List Char) : ℕ :=
  ds.foldl (fun a c => 10 * a + (c.toNat - 48)) 0

/-! ## Rounding

Python `round(x, 1)` rounds to the nearest tenth with ties going to the even
last digit. Floats are modelled as exact rationals throughout, so the model
rounds the exact rational value; the Python implementation applies the same
rule to the nearest binary double, which can land on either side of an exact
decimal tie. -/

/-- Round a rational to the nearest integer, ties to even, modelling the
rounding mode of Python `round`. -/
def roundHE (x : ℚ) : ℤ :=
  if Int.fract x < 1 / 2 then ⌊x⌋
  else if 1 / 2 < Int.fract x then ⌊x⌋ + 1
  else if Even ⌊x⌋ then ⌊x⌋ else ⌊x⌋ + 1

/-- Round a rational to one decimal place, modelling Python `round(x, 1)`. -/
def round1 (x : ℚ) : ℚ := (roundHE (10 * x) : ℚ) / 10

/-- Decimal rendering of a nonnegative rational with a terminating decimal
expansion, modelling Python `str` on such float values (always at least one
digit after the point). Used only to synthesize the free-text
`overall_assessment` field. -/
def fracDigitsGo : ℕ → ℚ → List Char
  | 0, _ => []
  | fuel + 1, q =>
    if q = 0 then []
    else
      let d := (⌊q * 10⌋).toNat
      Char.ofNat (48 + d) :: fracDigitsGo fuel (q * 10 - (d : ℚ))

/-- Decimal string for a score value; see `fracDigitsGo`. -/
def decimalRepr (q : ℚ) : String :=
  let n := ⌊q⌋
  let ds := fracDigitsGo 20 (q - (n : ℚ))
  toString n ++ "." ++ (if ds.isEmpty then "0" else (⟨ds⟩ : String))

/-! ## Data model -/

/-- Resume record fields consumed by the matcher (`resume_data` dict).
Optional fields model `dict.get` defaults of the source. -/
structure ResumeData where
  id : Option Int := none
  candidate_name : String := "Unknown"
  email : Option String := none
  skills : List String := []
deriving Repr, DecidableEq

/-- The `required_skills` entry of a job record may arrive as a list of
strings or as a single comma-delimited string. -/
inductive ReqSkills where
  | ofList (skills : List String)
  | ofStr (s : String)
deriving Repr, DecidableEq

/-- Job record fields consumed by the matcher (`job_data` dict). -/
structure JobData where
  required_skills : ReqSkills := .ofList []
deriving Repr, DecidableEq

/-- Match result record produced by `_parse_llm_response` and
`_fallback_matching`; the batch matcher later fills the identity fields. -/
structure MatchResult where
  match_score : ℚ
  justification : String
  matched_skills : List String
  missing_skills : List String
  overall_assessment : String
  recommendation : String
  resume_id : Option Int := none
  candidate_name : String := "Unknown"
  email : Option String := none
deriving Repr, DecidableEq

/-! ## Fallback scorer (`LLMMatcher._fallback_matching`) -/

/-- Normalisation applied to the raw required-skills input before building
the required set: lower-casing for list input, comma-splitting with trim and
lower-casing for string input. -/
def normRequired : ReqSkills → List String
  | .ofList l => l.map pyLower
  | .ofStr s => (splitOnComma s.data).map (fun t => (⟨lowerL (trimL t)⟩ : String))

/-- Raw required-skill items as they appear in the input (list elements, or
comma segments of the string form), before normalisation. -/
def rawRequired : ReqSkills → List String
  | .ofList l => l
  | .ofStr s => (splitOnComma s.data).map (fun t => (⟨t⟩ : String))

/-- Per-element normalisation used by the fallback scorer on required-skill
items: plain lower-casing for list input, trim plus lower-casing for comma
segments of string input. -/
def normElem : ReqSkills → String → String
  | .ofList _, r => pyLower r
  | .ofStr _, r => (⟨lowerL (trimL r.data)⟩ : String)

/-- Deterministic fallback scoring from `LLMMatcher._fallback_matching`:
lower-cased candidate and required skill sets (sets modelled as
duplicate-free lists), set intersection and difference, the linear score
`round(1 + 9 * |matched| / |required|, 1)` with empty-required default `5.0`,
band-dependent justification text and threshold-derived recommendation. -/
def fallback_matching (resume : ResumeData) (job : JobData) : MatchResult :=
  let candidate_skills := (resume.skills.map pyLower).dedup
  let required_skills := (normRequired job.required_skills).dedup
  let matched := candidate_skills ∩ required_skills
  let missing := required_skills.filter (fun s => decide (s ∉ candidate_skills))
  let score : ℚ :=
    if required_skills.length > 0 then
      round1 (1 + ((matched.length : ℚ) / (required_skills.length : ℚ)) * 9)
    else 5
  let justification : String :=
    if score ≥ 7 then
      "Strong candidate with " ++ toString matched.length ++ " out of " ++
        toString required_skills.length ++ " required skills."
    else if score ≥ 4 then
      "Moderate fit with " ++ toString matched.length ++
        " matching skills, but missing " ++ toString missing.length ++
        " key requirements."
    else
      "Limited fit with only " ++ toString matched.length ++
        " matching skills out of " ++ toString required_skills.length ++
        " required."
  { match_score := score
    justification := justification
    matched_skills := matched
    missing_skills := missing
    overall_assessment := "Automated Score: " ++ decimalRepr score ++ "/10"
    recommendation :=
      if score ≥ 8 then "Strong Hire"
      else if score ≥ 5 then "Consider"
      else "Pass" }

/-! ## LLM response parser (`LLMMatcher._parse_llm_response`)

Each of the five regex searches of the source is transcribed as an attempt
function (the pattern tried at one position) driven by `scanFirst`
(leftmost-match search). -/

/-- Attempt for `MATCH SCORE:?\s*(\d+(?:\.\d+)?)` at one position: heading
(case-insensitive), optional colon, greedy whitespace, then a digit run with
an optional fractional part. Yields the numeric value as a rational. -/
def attemptScore (t : List Char) : Option ℚ :=
  (stripPrefixCI "match score".data t).bind fun r =>
    let p := (stripColon r).dropWhile isSpace
    let ds := p.takeWhile Char.isDigit
    if ds.isEmpty then none
    else
      let rest := p.drop ds.length
      let fs :=
        match rest with
        | '.' :: q => q.takeWhile Char.isDigit
        | _ => []
      some ((natOfDigits ds : ℚ) + (natOfDigits fs : ℚ) / (10 ^ fs.length : ℕ))

/-- Attempt for a section pattern `HEADING:?(.*?)(TERMS|$)` (IGNORECASE,
DOTALL) at one position: heading, optional colon, then the lazy capture up to
the first terminator or end. -/
def attemptSection (heading : List Char) (terms : List (List Char))
    (t : List Char) : Option (List Char) :=
  (stripPrefixCI heading t).map fun r => captureUntil terms (stripColon r)

/-- The tail `\s*(.+?)(?:\n|$)` shared by the bullet-item pattern and the
RECOMMENDATION pattern: greedy whitespace (which may cross newlines), then a
lazy run of at least one non-newline character, terminated by a newline or
end of input. Returns the captured item and the remainder of the input after
the whole match (including a consumed newline terminator). When only
whitespace remains, the greedy star backtracks so that the capture takes the
last non-newline whitespace character, as the Python engine does. -/
def tailMatch (s : List Char) : Option (List Char × List Char) :=
  let w := s.takeWhile isSpace
  let p := s.drop w.length
  match p with
  | [] =>
    let nl := w.reverse.takeWhile (fun c => c = '\n')
    match w.reverse.dropWhile (fun c => c = '\n') with
    | [] => none
    | c :: _ => some ([c], nl.drop 1)
  | _ :: _ =>
    let item := p.takeWhile (fun c => c ≠ '\n')
    let rest := p.drop item.length
    some (item, match rest with | '\n' :: t2 => t2 | r2 => r2)

/-- Non-overlapping scan for the bullet-item pattern
`[-•]\s*(.+?)(?:\n|$)` (`re.findall`), fuelled by the input length. -/
def bulletsGo : ℕ → List Char → List (List Char)
  | 0, _ => []
  | _ + 1, [] => []
  | fuel + 1, c :: rest =>
    if c = '-' ∨ c = '•' then
      match tailMatch rest with
      | some (item, remaining) => item :: bulletsGo fuel remaining
      | none => bulletsGo fuel rest
    else bulletsGo fuel rest

/-- All bullet items of a section body, in order. -/
def pyBullets (s : List Char) : List (List Char) := bulletsGo s.length s

/-- Skill-list extraction applied to an optional section capture: bullet
items preferred, comma-splitting as fallback, each item stripped, empty items
dropped, capped at 10. -/
def sectionItems (sec : Option (List Char)) : List String :=
  match sec with
  | none => []
  | some txt =>
    let items := pyBullets txt
    let items :=
      if items.isEmpty then
        ((splitOnComma txt).map trimL).filter (fun l => !l.isEmpty)
      else items
    (((items.map trimL).filter (fun l => !l.isEmpty)).take 10).map
      (fun l => (⟨l⟩ : String))

/-- Attempt for `RECOMMENDATION:?\s*(.+?)(?:\n|$)` at one position. -/
def attemptRec (t : List Char) : Option (List Char) :=
  (stripPrefixCI "recommendation".data t).bind fun r =>
    (tailMatch (stripColon r)).map Prod.fst

/-- Structured parse of a raw model reply, from
`LLMMatcher._parse_llm_response`: each of the five labelled sections is
located independently and every field has a safe default (score `5.0`, empty
lists, empty justification, recommendation `"Consider"`). -/
def parse_llm_response (llm_response : String) : MatchResult :=
  let s := llm_response.data
  let match_score : ℚ :=
    match scanFirst attemptScore s with
    | some v => min 10 (max 1 v)
    | none => 5
  let matched_skills := sectionItems
    (scanFirst
      (attemptSection "matched skills".data
        ["missing skills:".data, "justification:".data]) s)
  let missing_skills := sectionItems
    (scanFirst
      (attemptSection "missing skills".data
        ["justification:".data, "recommendation:".data]) s)
  let justification : String :=
    match scanFirst (attemptSection "justification".data ["recommendation:".data]) s with
    | some cap => (⟨trimL cap⟩ : String)
    | none => ""
  let recommendation : String :=
    match scanFirst attemptRec s with
    | some item => (⟨trimL item⟩ : String)
    | none => "Consider"
  { match_score := match_score
    justification := justification
    matched_skills := matched_skills
    missing_skills := missing_skills
    overall_assessment :=
      "Match Score: " ++ decimalRepr match_score ++ "/10 - " ++ recommendation
    recommendation := recommendation }

/-! ## Per-resume matching and the batch matcher -/

/-- One resume against one job (`LLMMatcher.match_resume_to_job`), with the
language-model call abstracted to its optional raw reply: a `none` reply, or
an empty-string reply (falsy in the source), routes to the fallback scorer,
otherwise the reply is parsed. -/
def match_resume_to_job (llmReply : Option String) (resume : ResumeData)
    (job : JobData) : MatchResult :=
  match llmReply with
  | none => fallback_matching resume job
  | some r => if r = "" then fallback_matching resume job else parse_llm_response r

/-- Identity fields copied onto each result inside the batch loop. -/
def annotate (m : MatchResult) (r : ResumeData) : MatchResult :=
  { m with resume_id := r.id, candidate_name := r.candidate_name, email := r.email }

/-- Descending-score comparison used by the batch sort
(`results.sort(key=score, reverse=True)`). -/
def scoreGE (a b : MatchResult) : Prop := b.match_score ≤ a.match_score

instance : DecidableRel scoreGE := fun a b =>
  inferInstanceAs (Decidable (b.match_score ≤ a.match_score))

instance : IsTotal MatchResult scoreGE :=
  ⟨fun a b => le_total b.match_score a.match_score⟩

instance : IsTrans MatchResult scoreGE :=
  ⟨fun _ _ _ h1 h2 => le_trans h2 h1⟩

/-- Batch matcher (`LLMMatcher.batch_match_resumes`): per-resume results,
annotated with resume identity, stably sorted by descending score. The
language model is abstracted as an oracle giving the optional raw reply for
each resume; Python `list.sort` is a stable sort, modelled by insertion
sort on the descending-score relation. -/
def batch_match_resumes (llm : ResumeData → Option String)
    (resumes : List ResumeData) (job : JobData) : List MatchResult :=
  List.insertionSort scoreGE
    (resumes.map fun r => annotate (match_resume_to_job (llm r) r job) r)

/-! ## Skill extraction (`ResumeParser.extract_skills`) -/

/-- The fixed skill vocabulary of `ResumeParser.__init__`, in source order. -/
def common_skills : List String :=
  [ "python", "java", "javascript", "c++", "c#", "php", "ruby", "swift", "kotlin",
    "go", "rust", "typescript", "scala", "r", "matlab", "perl",
    "html", "css", "react", "angular", "vue", "node.js", "express", "django",
    "flask", "spring boot", "asp.net", "jquery", "bootstrap", "tailwind",
    "sql", "mysql", "postgresql", "mongodb", "redis", "oracle", "sqlite",
    "cassandra", "dynamodb", "firebase",
    "aws", "azure", "gcp", "docker", "kubernetes", "jenkins", "git", "github",
    "gitlab", "ci/cd", "terraform", "ansible",
    "machine learning", "deep learning", "ai", "data science", "tensorflow",
    "pytorch", "keras", "scikit-learn", "pandas", "numpy", "nlp",
    "android", "ios", "react native", "flutter", "xamarin",
    "linux", "unix", "agile", "scrum", "jira", "rest api", "graphql",
    "microservices", "oauth", "jwt", "websocket" ]

/-- Title-casing of Python `str.title()`: an alphabetic character is
upper-cased when the previous character is not alphabetic and lower-cased
otherwise; other characters pass through (ASCII model). -/
def pyTitleGo : Bool → List Char → List Char
  | _, [] => []
  | prevCased, c :: rest =>
    if c.isAlpha then
      (if prevCased then c.toLower else c.toUpper) :: pyTitleGo true rest
    else c :: pyTitleGo false rest

/-- Python `str.title()` on a string. -/
def pyTitle (s : String) : String := ⟨pyTitleGo false s.data⟩

/-- Literal pattern match at one position with word-boundary assertions on
both sides, the meaning of the search pattern
`\b re.escape(skill) \b`: the word-character status must change across each
boundary (positions outside the string count as non-word). -/
def matchWB (pat : List Char) (prevW : Bool) (s : List Char) : Bool :=
  if pat.isPrefixOf s then
    let firstW := match pat.head? with | some c => isWordChar c | none => false
    let lastW := match pat.getLast? with | some c => isWordChar c | none => false
    let nextW := match (s.drop pat.length).head? with | some c => isWordChar c | none => false
    (prevW != firstW) && (lastW != nextW)
  else false

/-- Scan carrying the word-character status of the previous character. -/
def occursWBGo (pat : List Char) (prevW : Bool) : List Char → Bool
  | [] => false
  | c :: rest => matchWB pat prevW (c :: rest) || occursWBGo pat (isWordChar c) rest

/-- Whether the literal pattern occurs in `s` with word boundaries on both
sides. -/
def occursWB (pat : List Char) (s : List Char) : Bool := occursWBGo pat false s

/-- Skill extraction from `ResumeParser.extract_skills`: every vocabulary
term found in the lower-cased text under word-boundary matching contributes
its title-cased form; the collected list is deduplicated and sorted. -/
def extract_skills (text : String) : List String :=
  let text_lower := lowerL text.data
  let found_skills :=
    (common_skills.filter fun skill => occursWB (lowerL skill.data) text_lower).map pyTitle
  List.insertionSort (· ≤ ·) found_skills.dedup

/-! ## Experience extraction (`ResumeParser.extract_experience`) -/

/-- An extracted experience entry: truncated description plus full text. -/
structure ExpEntry where
  description : String
  full_text : String
deriving Repr, DecidableEq

/-- First alternative of an alternation that matches at this position, in
pattern order, returning the rest of the input. -/
def firstAlt (alts : List (List Char)) (t : List Char) : Option (List Char) :=
  match alts with
  | [] => none
  | a :: rest =>
    match stripPrefixCI a t with
    | some r => some r
    | none => firstAlt rest t

/-- Attempt for the experience-section pattern
`(work experience|experience|employment|professional experience)(.*?)(education|skills|projects|certifications|$)`
(DOTALL, applied to lower-cased text) at one position, yielding the lazy
section capture. -/
def attemptExpSec (t : List Char) : Option (List Char) :=
  (firstAlt
      ["work experience".data, "experience".data, "employment".data,
        "professional experience".data] t).map
    fun r =>
      captureUntil
        ["education".data, "skills".data, "projects".data, "certifications".data] r

/-- Splitting on blank lines, the semantics of `re.split` with the pattern
`\n\s*\n`: each separator starts at a newline and extends through the
following whitespace up to the last newline inside that whitespace run
(greedy star with backtracking so the match can end with a newline);
fuelled by the input length. The accumulator holds the current piece in
reverse. -/
def splitBlankGo : ℕ → List Char → List Char → List (List Char)
  | _, cur, [] => [cur.reverse]
  | 0, cur, s => [cur.reverse ++ s]
  | fuel + 1, cur, c :: rest =>
    if c = '\n' then
      let w := rest.takeWhile isSpace
      match (w.reverse.dropWhile (fun d => d ≠ '\n')).length with
      | 0 => splitBlankGo fuel (c :: cur) rest
      | k + 1 => cur.reverse :: splitBlankGo fuel [] (rest.drop (k + 1))
    else splitBlankGo fuel (c :: cur) rest

/-- Split a section body into entries on blank-line separators. -/
def splitBlank (s : List Char) : List (List Char) := splitBlankGo s.length [] s

/-- Experience extraction from `ResumeParser.extract_experience`: locate the
experience section in the lower-cased text, split it on blank lines, keep
stripped entries longer than 20 characters, truncate descriptions to 200
characters, cap at 5 entries. -/
def extract_experience (text : String) : List ExpEntry :=
  let tl := lowerL text.data
  match scanFirst attemptExpSec tl with
  | none => []
  | some exp_section =>
    let entries := splitBlank exp_section
    ((((entries.map trimL).filter fun e => e.length > 20).map fun e =>
        ({ description := (⟨e.take 200⟩ : String), full_text := (⟨e⟩ : String) }
          : ExpEntry)).take 5)

/-! ## Experience-years estimate (`ResumeParser.calculate_experience_years`) -/

/-- Attempt for `(\d+)\+?\s*years?\s*(of)?\s*(experience)?` at a position
starting with a digit: greedy digit run, optional plus sign, whitespace, the
word `year` with optional `s`, then the optional `of` and `experience` parts
(which only extend the match span). Yields the number and the rest of the
input after the span. -/
def yearAttempt (s : List Char) : Option (ℕ × List Char) :=
  let ds := s.takeWhile Char.isDigit
  if ds.isEmpty then none
  else
    let r1 := s.drop ds.length
    let r2 := match r1 with | '+' :: t => t | t => t
    let r3 := r2.dropWhile isSpace
    match stripPrefixCI "year".data r3 with
    | none => none
    | some r4 =>
      let r5 := match r4 with | 's' :: t => t | t => t
      let r6 := r5.dropWhile isSpace
      let r7 := match stripPrefixCI "of".data r6 with | some t => t | none => r6
      let r8 := r7.dropWhile isSpace
      let r9 := match stripPrefixCI "experience".data r8 with | some t => t | none => r8
      some (natOfDigits ds, r9)

/-- All numbers matched by the year pattern, in text order, modelling
`re.findall`. A successful match span contains no digit beyond its leading
run, so restarting the scan at the next character (while suppressing
attempts that start inside a digit run) visits exactly the non-overlapping
matches. -/
def yearScanGo : Bool → List Char → List ℕ
  | _, [] => []
  | prevD, c :: rest =>
    if !prevD && c.isDigit then
      match yearAttempt (c :: rest) with
      | some (n, _) => n :: yearScanGo true rest
      | none => yearScanGo true rest
    else yearScanGo c.isDigit rest

/-- Numbers of all year-pattern matches in the lower-cased text. -/
def yearScan (s : List Char) : List ℕ := yearScanGo false s

/-- Maximum of a list of naturals with seed 0, modelling Python `max` on the
nonempty list of matched numbers. -/
def maxNat (l : List ℕ) : ℕ := l.foldl max 0

/-- Experience-years estimate from `ResumeParser.calculate_experience_years`:
the maximum year count matched anywhere in the lower-cased text, else a
position-count fallback, else `"Not specified"`. -/
def calculate_experience_years (text : String) : String :=
  let ms := yearScan (lowerL text.data)
  if !ms.isEmpty then toString (maxNat ms) ++ " years"
  else
    let experiences := extract_experience text
    if experiences.length > 0 then
      "~" ++ toString experiences.length ++ " positions"
    else "Not specified"

/-! ## Spec-side readings used for refinement comparison -/

/-- First numeric token (a digit run with optional fractional part) in a
character list, wherever it occurs. Spec-side reading used to compare claim
C4 with the parser: the claim speaks of the first numeric token found after
the MATCH SCORE heading. -/
def firstNumericTok : List Char → Option ℚ
  | [] => none
  | c :: rest =>
    if c.isDigit then
      let ds := (c :: rest).takeWhile Char.isDigit
      let r := (c :: rest).drop ds.length
      let fs := match r with | '.' :: q => q.takeWhile Char.isDigit | _ => []
      some ((natOfDigits ds : ℚ) + (natOfDigits fs : ℚ) / ((10 ^ fs.length : ℕ) : ℚ))
    else firstNumericTok rest

/-- Rest of the input after the first case-insensitive occurrence of a
heading. -/
def afterHeadingCI (pat : String) (s : List Char) : Option (List Char) :=
  scanFirst (stripPrefixCI pat.data) s

/-- Spec-side reading of claim C4: the score is the first numeric token
found anywhere after the MATCH SCORE heading, clamped into `[1, 10]`, with
default `5` when heading or token is absent. -/
def claimedScoreFirstToken (s : String) : ℚ :=
  match afterHeadingCI "match score" s.data with
  | none => 5
  | some rest =>
    match firstNumericTok rest with
    | none => 5
    | some v => min 10 (max 1 v)

/-! ## Helper lemmas -/

theorem floor_le_roundHE (x : ℚ) : ⌊x⌋ ≤ roundHE x := by
  unfold roundHE
  split_ifs <;> omega

theorem roundHE_le_floor_add_one (x : ℚ) : roundHE x ≤ ⌊x⌋ + 1 := by
  unfold roundHE
  split_ifs <;> omega

theorem roundHE_mono {x y : ℚ} (h : x ≤ y) : roundHE x ≤ roundHE y := by
  rcases lt_or_eq_of_le (Int.floor_mono h) with hf | hf
  · calc roundHE x ≤ ⌊x⌋ + 1 := roundHE_le_floor_add_one x
      _ ≤ ⌊y⌋ := by omega
      _ ≤ roundHE y := floor_le_roundHE y
  · have hfr : Int.fract x ≤ Int.fract y := by
      unfold Int.fract
      rw [hf]
      linarith
    unfold roundHE
    rw [hf]
    split_ifs <;> first | omega | linarith

theorem roundHE_intCast (n : ℤ) : roundHE (n : ℚ) = n := by
  unfold roundHE
  rw [Int.fract_intCast, Int.floor_intCast]
  norm_num

theorem round1_mono {x y : ℚ} (h : x ≤ y) : round1 x ≤ round1 y := by
  unfold round1
  have := roundHE_mono (by linarith : 10 * x ≤ 10 * y)
  have h10 : (0 : ℚ) ≤ 10 := by norm_num
  exact div_le_div_of_nonneg_right (by exact_mod_cast this) h10

theorem round1_one : round1 1 = 1 := by
  have : roundHE (10 * (1 : ℚ)) = 10 := by
    have := roundHE_intCast 10
    norm_num at this ⊢
    exact this
  unfold round1
  rw [this]
  norm_num

theorem round1_ten : round1 10 = 10 := by
  have : roundHE (10 * (10 : ℚ)) = 100 := by
    have := roundHE_intCast 100
    norm_num at this ⊢
    exact this
  unfold round1
  rw [this]
  norm_num

theorem round1_bounds {x : ℚ} (h1 : 1 ≤ x) (h10 : x ≤ 10) :
    1 ≤ round1 x ∧ round1 x ≤ 10 := by
  constructor
  · calc (1 : ℚ) = round1 1 := round1_one.symm
      _ ≤ round1 x := round1_mono h1
  · calc round1 x ≤ round1 10 := round1_mono h10
      _ = 10 := round1_ten

theorem toFinset_of_dedup {α} [DecidableEq α] (l : List α) :
    l.dedup.toFinset = l.toFinset := by
  ext a
  simp

/-- Cardinality bridge: the deduplicated intersection list computed by the
fallback scorer has the length of the finite-set intersection. -/
theorem inter_dedup_length (c r : List String) :
    ((c.dedup ∩ r.dedup).length : ℕ) = (c.toFinset ∩ r.toFinset).card := by
  have hn : (c.dedup ∩ r.dedup).Nodup := (List.nodup_dedup c).inter _
  rw [← List.toFinset_card_of_nodup hn, List.toFinset_inter,
    toFinset_of_dedup, toFinset_of_dedup]

theorem dedup_length_eq_card (r : List String) :
    (r.dedup.length : ℕ) = r.toFinset.card := by
  rw [← List.toFinset_card_of_nodup (List.nodup_dedup r), toFinset_of_dedup]

/-- The normalised required-skill list is the element-wise normalisation of
the raw required-skill items. -/
theorem normRequired_eq_map (R : ReqSkills) :
    normRequired R = (rawRequired R).map (normElem R) := by
  cases R with
  | ofList l => rfl
  | ofStr s => simp [normRequired, rawRequired, normElem, List.map_map, Function.comp]

/-- Score formula of the fallback scorer, expressed through finite-set
cardinalities of the normalised skill sets. -/
theorem fallback_score_formula (resume : ResumeData) (job : JobData) :
    (fallback_matching resume job).match_score =
      if normRequired job.required_skills = [] then (5 : ℚ)
      else
        round1 (1 + 9 *
          ((((resume.skills.map pyLower).toFinset ∩
              (normRequired job.required_skills).toFinset).card : ℚ) /
            ((normRequired job.required_skills).toFinset.card : ℚ))) := by
  simp only [fallback_matching]
  rcases eq_or_ne (normRequired job.required_skills) [] with h | h
  · simp [h]
  · have hlen : (normRequired job.required_skills).dedup.length > 0 := by
      rcases List.length_pos.mpr ((List.dedup_eq_nil _).ne.mpr h) with hp
      exact hp
    rw [if_pos hlen, if_neg h]
    rw [inter_dedup_length, dedup_length_eq_card]
    ring_nf

/-! ## Claim theorems -/

/-- C1: for every candidate skill list and required-skills input (list, or
comma-delimited string split, trimmed and lower-cased), the fallback score is
`round(1 + 9 * (|lower(C) ∩ norm(R)| / |norm(R)|), 1)` when the normalised
required set is non-empty, and exactly `5.0` when it is empty, regardless of
the candidate skills. -/
theorem c1_fallback_score (resume : ResumeData) (job : JobData) :
    (fallback_matching resume job).match_score =
      if normRequired job.required_skills = [] then (5 : ℚ)
      else
        round1 (1 + 9 *
          ((((resume.skills.map pyLower).toFinset ∩
              (normRequired job.required_skills).toFinset).card : ℚ) /
            ((normRequired job.required_skills).toFinset.card : ℚ))) :=
  fallback_score_formula resume job

/-- C2 counterexample: the response parser copies the free text after the
RECOMMENDATION heading into the recommendation field, so a parsed
MatchResult can carry a recommendation outside the four fixed labels. -/
theorem c2_recommendation_counterexample :
    (parse_llm_response "RECOMMENDATION: Definitely hire this person").recommendation =
        "Definitely hire this person" ∧
      "Definitely hire this person" ∉
        (["Strong Hire", "Consider", "Maybe", "Pass"] : List String) := by
  constructor
  · rfl
  · decide

/-- C2 amended: every MatchResult produced by the fallback scorer has its
recommendation among the four labels (in fact among the three labels Strong
Hire, Consider, Pass); the parse path instead stores the free text following
the RECOMMENDATION heading, defaulting to Consider, and is not restricted to
the label set. -/
theorem c2_fallback_recommendation_labels (resume : ResumeData) (job : JobData) :
    (fallback_matching resume job).recommendation ∈
      (["Strong Hire", "Consider", "Maybe", "Pass"] : List String) := by
  simp only [fallback_matching]
  split_ifs <;> simp

/-- C3: the matched and missing skill lists of the fallback scorer are disjoint,
and every element of either list is the normalisation (lower-casing; for
comma segments of a string input, trimming then lower-casing) of some raw
required-skill item. -/
theorem c3_matched_missing_partition (resume : ResumeData) (job : JobData) :
    (∀ x ∈ (fallback_matching resume job).matched_skills,
        x ∉ (fallback_matching resume job).missing_skills) ∧
      ∀ x, (x ∈ (fallback_matching resume job).matched_skills ∨
          x ∈ (fallback_matching resume job).missing_skills) →
        ∃ r ∈ rawRequired job.required_skills, x = normElem job.required_skills r := by
  constructor
  · intro x hx hmiss
    simp only [fallback_matching, List.mem_inter_iff, List.mem_filter,
      decide_eq_true_eq] at hx hmiss
    exact hmiss.2 hx.1
  · intro x hx
    have hreq : x ∈ (normRequired job.required_skills).dedup := by
      rcases hx with hx | hx
      · simp only [fallback_matching, List.mem_inter_iff] at hx
        exact hx.2
      · simp only [fallback_matching, List.mem_filter] at hx
        exact hx.1
    rw [List.mem_dedup, normRequired_eq_map, List.mem_map] at hreq
    rcases hreq with ⟨r, hr, hxr⟩
    exact ⟨r, hr, hxr.symm⟩

/-- C4 counterexample: on a reply whose MATCH SCORE heading is followed by a
word before the number, the first numeric token after the heading is 7 (so
the claim demands a parsed score of 7.0), but the parser pattern requires
the number to follow the heading immediately (up to an optional colon and
whitespace) and falls back to the default 5.0. -/
theorem c4_score_counterexample :
    claimedScoreFirstToken "MATCH SCORE: about 7" = 7 ∧
      (parse_llm_response "MATCH SCORE: about 7").match_score = 5 := by
  constructor
  · have h1 : afterHeadingCI "match score" "MATCH SCORE: about 7".data =
        some ": about 7".data := by decide
    have h2 : firstNumericTok ": about 7".data =
        some ((natOfDigits ['7'] : ℚ) +
          (natOfDigits ([] : List Char) : ℚ) / ((10 ^ (0 : ℕ) : ℕ) : ℚ)) := rfl
    have e1 : natOfDigits ['7'] = 7 := rfl
    have e2 : natOfDigits ([] : List Char) = 0 := rfl
    simp only [claimedScoreFirstToken, h1, h2, e1, e2]
    norm_num
  · rfl

/-- C4 amended: the parser sets the score to the numeric token immediately
following a MATCH SCORE heading (after an optional colon and whitespace),
at the first heading occurrence that is so followed, clamped into
`[1.0, 10.0]`; the default is `5.0` when no heading occurrence is
immediately followed by a numeric token. Hence the parsed score always lies
in `[1.0, 10.0]`. -/
theorem c4_score_clamped (s : String) :
    ((parse_llm_response s).match_score =
        match scanFirst attemptScore s.data with
        | some v => min 10 (max 1 v)
        | none => 5) ∧
      1 ≤ (parse_llm_response s).match_score ∧
        (parse_llm_response s).match_score ≤ 10 := by
  refine ⟨rfl, ?_⟩
  simp only [parse_llm_response]
  cases h : scanFirst attemptScore s.data with
  | none => norm_num
  | some v =>
    constructor
    · exact le_min (by norm_num) (le_max_left 1 v)
    · exact min_le_left 10 (max 1 v)

/-- Generic absence lemma: if a pattern never occurs case-insensitively in
the input and an attempt function fails wherever the pattern is not a
prefix, the leftmost-match search fails. -/
theorem scanFirst_eq_none {β} (A : List Char → Option β) (pat : String)
    (hA : ∀ t, stripPrefixCI pat.data t = none → A t = none) :
    ∀ s : List Char, containsCI pat s = false → scanFirst A s = none := by
  intro s
  induction s with
  | nil =>
    intro h
    simp only [containsCI, scanFirst] at h
    cases hs : stripPrefixCI pat.data [] with
    | some r => rw [hs] at h; simp at h
    | none => simp [scanFirst, hA [] hs]
  | cons c rest ih =>
    intro h
    simp only [containsCI, scanFirst] at h
    cases hs : stripPrefixCI pat.data (c :: rest) with
    | some r => rw [hs] at h; simp at h
    | none =>
      rw [hs] at h
      have hrest : containsCI pat rest = false := h
      simp [scanFirst, hA _ hs, ih hrest]

/-- C5: a reply containing none of the five labelled section headings parses
to the full default record: score 5.0, empty matched and missing skill
lists, empty justification, recommendation Consider. The parse function is
total, so parsing never fails on any input string. -/
theorem c5_default_record (s : String)
    (h1 : containsCI "match score" s.data = false)
    (h2 : containsCI "matched skills" s.data = false)
    (h3 : containsCI "missing skills" s.data = false)
    (h4 : containsCI "justification" s.data = false)
    (h5 : containsCI "recommendation" s.data = false) :
    (parse_llm_response s).match_score = 5 ∧
      (parse_llm_response s).matched_skills = [] ∧
      (parse_llm_response s).missing_skills = [] ∧
      (parse_llm_response s).justification = "" ∧
      (parse_llm_response s).recommendation = "Consider" := by
  have e1 : scanFirst attemptScore s.data = none :=
    scanFirst_eq_none _ "match score"
      (fun t ht => by simp [attemptScore, ht]) _ h1
  have e2 : scanFirst
      (attemptSection "matched skills".data
        ["missing skills:".data, "justification:".data]) s.data = none :=
    scanFirst_eq_none _ "matched skills"
      (fun t ht => by simp [attemptSection, ht]) _ h2
  have e3 : scanFirst
      (attemptSection "missing skills".data
        ["justification:".data, "recommendation:".data]) s.data = none :=
    scanFirst_eq_none _ "missing skills"
      (fun t ht => by simp [attemptSection, ht]) _ h3
  have e4 : scanFirst
      (attemptSection "justification".data ["recommendation:".data]) s.data = none :=
    scanFirst_eq_none _ "justification"
      (fun t ht => by simp [attemptSection, ht]) _ h4
  have e5 : scanFirst attemptRec s.data = none :=
    scanFirst_eq_none _ "recommendation"
      (fun t ht => by simp [attemptRec, ht]) _ h5
  simp [parse_llm_response, e1, e2, e3, e4, e5, sectionItems]

/-- Witness for C5 at the concrete heading-free reply `"hello"`. -/
theorem c5_default_record_witness :
    (containsCI "match score" "hello".data = false) ∧
      (parse_llm_response "hello").match_score = 5 ∧
        (parse_llm_response "hello").recommendation = "Consider" := by
  have h := c5_default_record "hello" (by decide) (by decide) (by decide)
    (by decide) (by decide)
  exact ⟨by decide, h.1, h.2.2.2.2⟩

/-- Filtering one score class through an ordered insert: the inserted
element lands in front of its class, because every element skipped over by
the insert has a strictly larger score. -/
theorem filter_orderedInsert_score (v : ℚ) (a : MatchResult) (l : List MatchResult) :
    (List.orderedInsert scoreGE a l).filter (fun m => decide (m.match_score = v)) =
      if a.match_score = v then
        a :: l.filter (fun m => decide (m.match_score = v))
      else l.filter (fun m => decide (m.match_score = v)) := by
  induction l with
  | nil =>
    by_cases hv : a.match_score = v <;>
      simp [List.orderedInsert, List.filter, hv]
  | cons b t ih =>
    by_cases hr : scoreGE a b
    · rw [List.orderedInsert, if_pos hr]
      by_cases hv : a.match_score = v <;>
        simp [List.filter_cons, hv]
    · rw [List.orderedInsert, if_neg hr]
      by_cases hv : a.match_score = v
      · have hb : ¬ b.match_score = v := by
          intro hbv
          have hlt : a.match_score < b.match_score := lt_of_not_le hr
          rw [hbv, hv] at hlt
          exact lt_irrefl v hlt
        simp [List.filter_cons, hb, hv, ih]
      · simp [List.filter_cons, hv, ih]

/-- Filtering one score class through the insertion sort leaves it
unchanged: the stable sort preserves the relative order of equal scores. -/
theorem filter_insertionSort_score (v : ℚ) (l : List MatchResult) :
    (List.insertionSort scoreGE l).filter (fun m => decide (m.match_score = v)) =
      l.filter (fun m => decide (m.match_score = v)) := by
  induction l with
  | nil => rfl
  | cons a t ih =>
    rw [List.insertionSort, filter_orderedInsert_score, ih, List.filter_cons]
    by_cases hv : a.match_score = v <;> simp [hv]

/-- C6: the batch matcher returns one result per resume, sorted so scores
are non-increasing, and for every score value the results carrying that
score appear in the same relative order as the corresponding resumes in the
input (stability of the sort over the annotated per-resume results). -/
theorem c6_batch_sorted_stable (llm : ResumeData → Option String)
    (resumes : List ResumeData) (job : JobData) :
    (batch_match_resumes llm resumes job).length = resumes.length ∧
      List.Sorted scoreGE (batch_match_resumes llm resumes job) ∧
      ∀ v : ℚ,
        (batch_match_resumes llm resumes job).filter
            (fun m => decide (m.match_score = v)) =
          (resumes.map fun r => annotate (match_resume_to_job (llm r) r job) r).filter
            (fun m => decide (m.match_score = v)) := by
  refine ⟨?_, ?_, ?_⟩
  · rw [batch_match_resumes,
      (List.perm_insertionSort scoreGE _).length_eq, List.length_map]
  · exact List.sorted_insertionSort scoreGE _
  · intro v
    exact filter_insertionSort_score v _

/-- C7: holding the required-skills input fixed, the fallback score is
monotonically non-decreasing in the size of the intersection of the
normalised candidate and required skill sets, and it always lies in the
closed interval `[1.0, 10.0]`. -/
theorem c7_score_monotone_bounded (r r' : ResumeData) (job : JobData) :
    (((r.skills.map pyLower).toFinset ∩
          (normRequired job.required_skills).toFinset).card ≤
        ((r'.skills.map pyLower).toFinset ∩
          (normRequired job.required_skills).toFinset).card →
      (fallback_matching r job).match_score ≤ (fallback_matching r' job).match_score) ∧
      1 ≤ (fallback_matching r job).match_score ∧
        (fallback_matching r job).match_score ≤ 10 := by
  have hf := fallback_score_formula r job
  have hf' := fallback_score_formula r' job
  rcases eq_or_ne (normRequired job.required_skills) [] with h | h
  · rw [hf, hf', if_pos h, if_pos h]
    exact ⟨fun _ => le_refl _, by norm_num, by norm_num⟩
  · rw [hf, hf', if_neg h, if_neg h]
    obtain ⟨a, ha⟩ := List.exists_mem_of_ne_nil _ h
    have hn : 0 < (normRequired job.required_skills).toFinset.card :=
      Finset.card_pos.mpr ⟨a, List.mem_toFinset.mpr ha⟩
    have hnQ : (0 : ℚ) < ((normRequired job.required_skills).toFinset.card : ℚ) := by
      exact_mod_cast hn
    have hm_le : ((r.skills.map pyLower).toFinset ∩
        (normRequired job.required_skills).toFinset).card ≤
        (normRequired job.required_skills).toFinset.card :=
      Finset.card_le_card Finset.inter_subset_right
    have h01 : (0 : ℚ) ≤
        ((((r.skills.map pyLower).toFinset ∩
          (normRequired job.required_skills).toFinset).card : ℚ) /
          ((normRequired job.required_skills).toFinset.card : ℚ)) := by positivity
    have h11 : ((((r.skills.map pyLower).toFinset ∩
        (normRequired job.required_skills).toFinset).card : ℚ) /
        ((normRequired job.required_skills).toFinset.card : ℚ)) ≤ 1 := by
      rw [div_le_one hnQ]
      exact_mod_cast hm_le
    refine ⟨fun hmm => ?_, ?_⟩
    · apply round1_mono
      have hdiv : ((((r.skills.map pyLower).toFinset ∩
          (normRequired job.required_skills).toFinset).card : ℚ) /
          ((normRequired job.required_skills).toFinset.card : ℚ)) ≤
          ((((r'.skills.map pyLower).toFinset ∩
          (normRequired job.required_skills).toFinset).card : ℚ) /
          ((normRequired job.required_skills).toFinset.card : ℚ)) :=
        div_le_div_of_nonneg_right (by exact_mod_cast hmm) (le_of_lt hnQ)
      linarith
    · exact round1_bounds (by linarith) (by linarith)

/-- Witness for C7 at concrete candidate and required skill sets. -/
theorem c7_score_monotone_bounded_witness :
    (fallback_matching { skills := ["python"] }
        { required_skills := .ofList ["Python", "Flask"] }).match_score ≤
      (fallback_matching { skills := ["python", "flask"] }
        { required_skills := .ofList ["Python", "Flask"] }).match_score ∧
      1 ≤ (fallback_matching { skills := ["python"] }
        { required_skills := .ofList ["Python", "Flask"] }).match_score :=
  ⟨(c7_score_monotone_bounded { skills := ["python"] }
      { skills := ["python", "flask"] }
      { required_skills := .ofList ["Python", "Flask"] }).1 (by decide),
    (c7_score_monotone_bounded { skills := ["python"] }
      { skills := ["python", "flask"] }
      { required_skills := .ofList ["Python", "Flask"] }).2.1⟩

/-- C8: skill extraction yields a duplicate-free, lexicographically sorted
list whose elements are exactly the title-cased vocabulary terms occurring
with word boundaries in the lower-cased text, and it is deterministic, so
running it twice on the same text yields the same output. -/
theorem c8_extract_skills_canonical (text : String) :
    (extract_skills text).Nodup ∧
      List.Sorted (· ≤ ·) (extract_skills text) ∧
      (∀ x, x ∈ extract_skills text ↔
        ∃ t ∈ common_skills,
          occursWB (lowerL t.data) (lowerL text.data) = true ∧ x = pyTitle t) ∧
      extract_skills text = extract_skills text := by
  refine ⟨?_, ?_, ?_, rfl⟩
  · exact (List.perm_insertionSort _ _).nodup_iff.mpr (List.nodup_dedup _)
  · exact List.sorted_insertionSort _ _
  · intro x
    simp only [extract_skills, List.mem_insertionSort, List.mem_dedup,
      List.mem_map, List.mem_filter]
    constructor
    · rintro ⟨t, ⟨ht, hocc⟩, rfl⟩
      exact ⟨t, ht, hocc, rfl⟩
    · rintro ⟨t, ht, hocc, rfl⟩
      exact ⟨t, ⟨ht, hocc⟩, rfl⟩

theorem le_foldl_max (l : List ℕ) (a : ℕ) : a ≤ l.foldl max a := by
  induction l generalizing a with
  | nil => exact le_refl a
  | cons c t ih => exact le_trans (le_max_left a c) (ih (max a c))

theorem mem_le_foldl_max {n : ℕ} (l : List ℕ) (a : ℕ) (h : n ∈ l) :
    n ≤ l.foldl max a := by
  induction l generalizing a with
  | nil => cases h
  | cons c t ih =>
    rcases List.mem_cons.mp h with rfl | h2
    · exact le_trans (le_max_right a n) (le_foldl_max t _)
    · exact ih _ h2

/-- C9: the experience-years estimate reports the maximum number matched by
any year pattern in the text, formatted as years; with no match it reports
the position-count fallback over extracted experience entries, and with no
entries either it reports Not specified. The reported number dominates every
matched number. -/
theorem c9_experience_years (text : String) :
    (calculate_experience_years text =
      match (yearScan (lowerL text.data)).max? with
      | some M => toString M ++ " years"
      | none =>
        if (extract_experience text).length > 0 then
          "~" ++ toString (extract_experience text).length ++ " positions"
        else "Not specified") ∧
      ∀ n ∈ yearScan (lowerL text.data), n ≤ maxNat (yearScan (lowerL text.data)) := by
  constructor
  · cases hys : yearScan (lowerL text.data) with
    | nil => simp [calculate_experience_years, hys, List.max?]
    | cons a as =>
      simp [calculate_experience_years, hys, List.max?, maxNat, Nat.zero_max]
  · intro n hn
    exact mem_le_foldl_max _ _ hn

/-- Witness for C9 at the two-mention scenario text: the maximum wins. -/
theorem c9_experience_years_witness :
    5 ∈ yearScan (lowerL "5+ years of experience and 3 years of experience".data) ∧
      5 ≤ maxNat (yearScan
        (lowerL "5+ years of experience and 3 years of experience".data)) ∧
      calculate_experience_years
        "5+ years of experience and 3 years of experience" = "5 years" :=
  ⟨by decide,
    (c9_experience_years "5+ years of experience and 3 years of experience").2 5
      (by decide),
    (c9_experience_years "5+ years of experience and 3 years of experience").1.trans
      (by decide)⟩

/-- C10: string-typed required skills are normalised by comma-splitting,
trimming and lower-casing; the empty string hence yields the non-empty
required set containing only the empty-named skill, and any candidate
without an empty-named skill scores exactly 1.0 (not the empty-required
default 5.0). -/
theorem c10_empty_string_required (resume : ResumeData) :
    (∀ s : String, normRequired (.ofStr s) =
        (splitOnComma s.data).map (fun t => (⟨lowerL (trimL t)⟩ : String))) ∧
      normRequired (.ofStr "") = [""] ∧
      ("" ∉ resume.skills.map pyLower →
        (fallback_matching resume { required_skills := .ofStr "" }).match_score = 1) := by
  have hsingle : normRequired (.ofStr "") = [""] := by decide
  refine ⟨fun s => rfl, hsingle, fun h => ?_⟩
  have hf := fallback_score_formula resume { required_skills := .ofStr "" }
  rw [hf]
  simp only [hsingle]
  rw [if_neg (by decide : ¬ ([""] : List String) = [])]
  have hc1 : (([""] : List String).toFinset.card : ℚ) = 1 := by decide
  have hc0 : ((resume.skills.map pyLower).toFinset ∩
      ([""] : List String).toFinset).card = 0 := by
    rw [Finset.card_eq_zero, Finset.eq_empty_iff_forall_not_mem]
    intro x hx
    rcases Finset.mem_inter.mp hx with ⟨hxc, hxr⟩
    have hxe : x = "" := by
      have := List.mem_toFinset.mp hxr
      simpa using this
    rw [hxe] at hxc
    exact h (List.mem_toFinset.mp hxc)
  rw [hc0, hc1]
  norm_num
  exact round1_one

/-- Witness for C10 at a concrete candidate lacking an empty-named skill. -/
theorem c10_empty_string_required_witness :
    "" ∉ (({ skills := ["python"] } : ResumeData).skills.map pyLower) ∧
      (fallback_matching { skills := ["python"] }
        { required_skills := .ofStr "" }).match_score = 1 :=
  ⟨by decide, (c10_empty_string_required { skills := ["python"] }).2.2 (by decide)⟩

end SRS
